import Mathlib

/-!
Shallow embedding of the D3 map-crafting game core (`src/main.ts`):
the deterministic cell generator, the world model (player position, hand,
override table), the pick-up/combine interaction state machine, and the
persistence layer (save / load / clearSavedState), together with proofs of
the specification's testable properties.

The authoritative source is the `GameModel` class in `src/main.ts`.
JavaScript numbers are modelled as `Int` (all game values are small
integers); the value returned by the `luck` hash is modelled as `ℚ`.
-/

set_option autoImplicit false

namespace D3

/-! ## Constants (from `src/main.ts`) -/

/-- `const CELL_DEG = 1e-4`. -/
def CELL_DEG : ℚ := 1 / 10000

/-- `const INTERACT_RANGE = 3`. -/
def INTERACT_RANGE : Int := 3

/-- `const TARGET = 32` (also the `GameModel` constructor default `target`). -/
def TARGET : Int := 32

/-! ## Decimal rendering of integers

JavaScript template literals (`` `${i},${j}` ``) render integers in
standard decimal notation with a leading `-` for negatives.  We embed that
rendering explicitly.  `digitsAux` carries a fuel argument (any
`fuel > n` suffices) so that the definition is structurally recursive
and computable by the kernel. -/

def digitsAux (fuel : Nat) (n : Nat) : List Nat :=
  match fuel with
  | 0 => []
  | fuel + 1 => if n < 10 then [n] else digitsAux fuel (n / 10) ++ [n % 10]

/-- The decimal digits of `n`, most significant first. -/
def natDigits (n : Nat) : List Nat := digitsAux (n + 1) n

/-- The characters of the decimal rendering of a natural number. -/
def natChars (n : Nat) : List Char := (natDigits n).map Nat.digitChar

/-- The characters of the decimal rendering of an integer (JS `String(n)`). -/
def intChars (n : Int) : List Char :=
  if n < 0 then '-' :: natChars n.natAbs else natChars n.toNat

/-- JS number-to-string conversion for integers. -/
def intStr (n : Int) : String := String.mk (intChars n)

/-! ## Types (from `src/main.ts`) -/

/-- `export type IJ = { i: number; j: number }`. -/
structure IJ where
  i : Int
  j : Int
deriving DecidableEq, Repr

/-- `toIJ`: converts geographic coordinates to grid coordinates
(`Math.floor(lat / CELL_DEG)`, `Math.floor(lng / CELL_DEG)`). -/
def toIJ (lat lng : ℚ) : IJ :=
  ⟨Int.floor (lat / CELL_DEG), Int.floor (lng / CELL_DEG)⟩

/-- `type GameState`: player position, hand, and the override table.
The JS `Map<string, number>` is modelled as an association list in
insertion order with unique keys (`mapGet` / `mapSet` below give the
`Map.get` / `Map.set` semantics). -/
structure GameState where
  playerIJ : IJ
  inHand : Option Int
  modifiedCells : List (String × Int)
deriving DecidableEq, Repr

/-- `type GameEvent` (victory modes `"pick"` and `"craft"`). -/
inductive VictoryMode where
  | pick
  | craft
deriving DecidableEq, Repr

/-- `type GameEvent = { type: "none" } | { type: "victory"; mode; value }`. -/
inductive GameEvent where
  | none
  | victory (mode : VictoryMode) (value : Int)
deriving DecidableEq, Repr

/-! ## JS `Map` model -/

/-- `Map.get` (with `Map.has` folded in): first entry with the given key. -/
def mapGet (m : List (String × Int)) (k : String) : Option Int :=
  match m with
  | [] => Option.none
  | (k1, v1) :: rest => if k1 = k then some v1 else mapGet rest k

/-- `Map.set`: replace the value of an existing key in place, otherwise
append the new entry (JS `Map` insertion-order semantics). -/
def mapSet (m : List (String × Int)) (k : String) (v : Int) :
    List (String × Int) :=
  match m with
  | [] => [(k, v)]
  | (k1, v1) :: rest =>
    if k1 = k then (k, v) :: rest else (k1, v1) :: mapSet rest k v

/-! ## Utilities (from `src/main.ts`) -/

/-- `function key(i, j) { return ` `` `${i},${j}` `` `; }`. -/
def key (i j : Int) : String := intStr i ++ "," ++ intStr j

/-- The seed string `` `spawn:${i},${j}` `` used by `getDefaultCellState`. -/
def spawnKey (i j : Int) : String := "spawn:" ++ key i j

/-- `getDefaultCellState`: deterministic base value of a cell.  The `luck`
hash-to-float function lives in `src/_luck.ts`, which is not part of the
sources here; following the spec (a pure deterministic hash from the seed
string to a real in `[0,1)`) it is passed as an explicit function
parameter `luck : String → ℚ`. -/
def getDefaultCellState (luck : String → ℚ) (i j : Int) : Int :=
  let r := luck (spawnKey i j)
  if r < 1 / 4 then 1
  else if r < 3 / 10 then 2
  else if r < 8 / 25 then 4
  else 0

/-! ## GameModel -/

/-- The state built by the `GameModel` constructor before `load()` runs:
given start position, empty hand, empty override table. -/
def initialState (p : IJ) : GameState :=
  { playerIJ := p, inHand := Option.none, modifiedCells := [] }

/-- `getCellState`: override value if present, else the generator default. -/
def getCellState (luck : String → ℚ) (s : GameState) (i j : Int) : Int :=
  match mapGet s.modifiedCells (key i j) with
  | some v => v
  | Option.none => getDefaultCellState luck i j

/-- `isNear`: per-axis Chebyshev check
`|i - ip| <= INTERACT_RANGE && |j - jp| <= INTERACT_RANGE`. -/
def isNear (s : GameState) (i j : Int) : Bool :=
  |i - s.playerIJ.i| ≤ INTERACT_RANGE ∧ |j - s.playerIJ.j| ≤ INTERACT_RANGE

/-- `movePlayerBy(di, dj)`: translate the player position. -/
def movePlayerBy (s : GameState) (di dj : Int) : GameState :=
  { s with playerIJ := ⟨s.playerIJ.i + di, s.playerIJ.j + dj⟩ }

/-- `movePlayerToIJ(newIJ)`: absolute repositioning. -/
def movePlayerToIJ (s : GameState) (p : IJ) : GameState :=
  { s with playerIJ := p }

/-- `handleCellClick(i, j)`: the pick-up / combine state machine.  Returns
the updated state paired with the reported `GameEvent`.  (The `save()`
calls inside only persist the state and do not affect it; persistence is
modelled separately below.) -/
def handleCellClick (luck : String → ℚ) (s : GameState) (i j : Int) :
    GameState × GameEvent :=
  if ¬ isNear s i j then (s, .none)
  else
    let cv := getCellState luck s i j
    match s.inHand with
    | Option.none =>
      if 0 < cv then
        let s1 : GameState :=
          { s with
            modifiedCells := mapSet s.modifiedCells (key i j) 0,
            inHand := some cv }
        if TARGET ≤ cv then (s1, .victory .pick cv) else (s1, .none)
      else (s, .none)
    | some h =>
      if cv = h ∧ 0 < cv then
        let newVal := h * 2
        let s1 : GameState :=
          { s with
            modifiedCells := mapSet s.modifiedCells (key i j) newVal,
            inHand := Option.none }
        if TARGET ≤ newVal then (s1, .victory .craft newVal) else (s1, .none)
      else (s, .none)

/-! ## Persistence

The external store (`localStorage` under the single key
`GAME_STORAGE_KEY`) is modelled as `Option Stored`: `Option.none` is a
missing key.  A present string is either the empty string
(`Stored.empty` — the only falsy string, so `load`'s `if (!saved)
return` treats it like a missing key and never reaches the parser), a
nonempty text that `JSON.parse` rejects (`Stored.corrupt`, the `catch`
branch of `load`), or one that parses to a JS value whose snapshot
fields may each be absent (`Stored.parsed`); `load` accesses those
fields defensively (`??` fallbacks, `Array.isArray`).  JSON
serialization of the snapshot shape is lossless for these values, so
`save` is modelled as producing the parsed payload directly. -/

/-- The parsed form of a stored payload (`PersistedState` in the source,
but with every field optional since `JSON.parse` output is unchecked). -/
structure PersistedState where
  playerIJ : Option IJ
  inHand : Option Int
  overrides : Option (List (String × Int))
deriving DecidableEq, Repr

/-- A payload present in the store: the empty string (falsy), a nonempty
string `JSON.parse` rejects, or a parsed value. -/
inductive Stored where
  | empty
  | corrupt
  | parsed (p : PersistedState)
deriving DecidableEq, Repr

/-- `save()`: the snapshot written to the store
(`playerIJ`, `inHand`, `overrides = Array.from(modifiedCells.entries())`). -/
def save (s : GameState) : Stored :=
  .parsed ⟨some s.playerIJ, s.inHand, some s.modifiedCells⟩

/-- The `Map` rebuilt by `load` from the parsed `overrides` entries
(`for (const [k, v] of parsed.overrides) map.set(k, v)`). -/
def buildMap (entries : List (String × Int)) : List (String × Int) :=
  entries.foldl (fun m kv => mapSet m kv.1 kv.2) []

/-- `load()`: restore state from the store.  Returns the new state and
the store content afterwards.  A missing key and the falsy empty string
both take the early `if (!saved) return`, the latter staying in the
store; a payload that makes `JSON.parse` throw is removed in the `catch`
branch; a parse success leaves the store untouched. -/
def load (s : GameState) (store : Option Stored) :
    GameState × Option Stored :=
  match store with
  | Option.none => (s, Option.none)
  | some .empty => (s, some .empty)
  | some .corrupt => (s, Option.none)
  | some (.parsed p) =>
    let map := match p.overrides with
      | some entries => buildMap entries
      | Option.none => []
    ({ playerIJ := p.playerIJ.getD s.playerIJ,
       inHand := p.inHand,
       modifiedCells := map }, some (.parsed p))

/-- `clearSavedState()`: delete the persisted snapshot. -/
def clearSavedState (_store : Option Stored) : Option Stored := Option.none

/-- The `GameModel` constructor: default state for the given start
position, then `load()`. -/
def initModel (p : IJ) (store : Option Stored) : GameState × Option Stored :=
  load (initialState p) store

/-- `createGame` start position: `toIJ(START_LATLNG.lat, START_LATLNG.lng)`. -/
def startIJ : IJ := toIJ (36.997936938057016 : ℚ) (-122.05703507501151 : ℚ)

/-- The New Game button: `clearSavedState()` then `location.reload()`,
which re-runs `createGame` (a fresh `GameModel` at `startIJ` loading from
the now-cleared store). -/
def newGame (store : Option Stored) : GameState × Option Stored :=
  initModel startIJ (clearSavedState store)

/-! ## Operation sequences on the model -/

/-- A state-mutating operation of the public model interface. -/
inductive Op where
  | moveBy (di dj : Int)
  | moveTo (p : IJ)
  | click (i j : Int)
deriving DecidableEq, Repr

/-- Apply one operation to the state (the event of a click is observed by
the view and does not feed back into the model state). -/
def applyOp (luck : String → ℚ) (s : GameState) : Op → GameState
  | .moveBy di dj => movePlayerBy s di dj
  | .moveTo p => movePlayerToIJ s p
  | .click i j => (handleCellClick luck s i j).1

/-- Run a sequence of operations from a state. -/
def run (luck : String → ℚ) (s : GameState) (ops : List Op) : GameState :=
  ops.foldl (applyOp luck) s

/-! ## Interaction state machine: pick-up, combine, no-op -/

/-- C1: with an empty hand and an in-range cell of current value `cv`,
`handleCellClick` sets the cell's override to `0`, puts `cv` in hand, and
reports a `"pick"` victory carrying `cv` exactly when `cv ≥ 32`, otherwise
the event `none`; when `cv = 0` nothing changes. -/
theorem handleCellClick_pickup (luck : String → ℚ) (s : GameState)
    (i j : Int) (hh : s.inHand = Option.none) (hn : isNear s i j = true) :
    (0 < getCellState luck s i j →
      handleCellClick luck s i j =
        ({ s with
            modifiedCells := mapSet s.modifiedCells (key i j) 0,
            inHand := some (getCellState luck s i j) },
         if 32 ≤ getCellState luck s i j then
           .victory .pick (getCellState luck s i j)
         else .none))
    ∧ (getCellState luck s i j = 0 →
        handleCellClick luck s i j = (s, .none)) := by
  constructor
  · intro hpos
    simp [handleCellClick, hn, hh, hpos, TARGET]
    split <;> rfl
  · intro h0
    simp [handleCellClick, hn, hh, h0]

/-- Witness for C1: picking up an override value 5 at the player's own
cell empties the cell, puts 5 in hand, and reports no victory. -/
theorem handleCellClick_pickup_witness :
    handleCellClick (fun _ => (0 : ℚ))
        ⟨⟨0, 0⟩, Option.none, [(key 0 0, 5)]⟩ 0 0 =
      (⟨⟨0, 0⟩, some 5, [(key 0 0, 0)]⟩, .none) := by
  have h := handleCellClick_pickup (fun _ => (0 : ℚ))
    ⟨⟨0, 0⟩, Option.none, [(key 0 0, 5)]⟩ 0 0 rfl (by decide)
  have h2 := h.1 (by decide)
  rw [h2]
  decide

/-- C2: holding `h` over an in-range cell of equal positive current value,
`handleCellClick` sets the cell's override to `2*h`, empties the hand, and
reports a `"craft"` victory carrying `2*h` exactly when `2*h ≥ 32`,
otherwise the event `none`. -/
theorem handleCellClick_combine (luck : String → ℚ) (s : GameState)
    (i j h : Int) (hh : s.inHand = some h) (hn : isNear s i j = true)
    (hcv : getCellState luck s i j = h) (hpos : 0 < h) :
    handleCellClick luck s i j =
      ({ s with
          modifiedCells := mapSet s.modifiedCells (key i j) (h * 2),
          inHand := Option.none },
       if 32 ≤ h * 2 then .victory .craft (h * 2) else .none) := by
  simp [handleCellClick, hn, hh, hcv, hpos, TARGET]
  split <;> rfl

/-- Witness for C2: combining a held 16 onto a cell of value 16 produces
32 and emits a win-by-craft event carrying 32. -/
theorem handleCellClick_combine_witness :
    handleCellClick (fun _ => (0 : ℚ))
        ⟨⟨0, 0⟩, some 16, [(key 0 0, 16)]⟩ 0 0 =
      (⟨⟨0, 0⟩, Option.none, [(key 0 0, 32)]⟩, .victory .craft 32) := by
  have h := handleCellClick_combine (fun _ => (0 : ℚ))
    ⟨⟨0, 0⟩, some 16, [(key 0 0, 16)]⟩ 0 0 16 rfl (by decide) (by decide)
    (by decide)
  rw [h]
  decide

/-- C3: an out-of-range click, an empty-hand click on an empty cell, and a
click with a held value on a cell of differing current value are all
no-ops returning the event `none` and leaving the state unchanged; with
the player at (0,0), the cell (0,4) is out of range while (3,3) is in
range. -/
theorem handleCellClick_noop (luck : String → ℚ) (s : GameState)
    (i j : Int)
    (hcase : isNear s i j = false
      ∨ (s.inHand = Option.none ∧ getCellState luck s i j = 0)
      ∨ (∃ hv, s.inHand = some hv ∧ getCellState luck s i j ≠ hv)) :
    handleCellClick luck s i j = (s, .none)
    ∧ isNear (initialState ⟨0, 0⟩) 0 4 = false
    ∧ isNear (initialState ⟨0, 0⟩) 3 3 = true := by
  refine ⟨?_, by decide, by decide⟩
  rcases hcase with hfar | ⟨hh, h0⟩ | ⟨hv, hh, hne⟩
  · simp [handleCellClick, hfar]
  · by_cases hn : isNear s i j = true
    · simp [handleCellClick, hn, hh, h0]
    · simp [handleCellClick, hn]
  · by_cases hn : isNear s i j = true
    · simp [handleCellClick, hn, hh, hne]
    · simp [handleCellClick, hn]

/-- Witness for C3: with the player at (0,0) and an empty hand, clicking
the out-of-range cell (0,4) changes nothing. -/
theorem handleCellClick_noop_witness :
    handleCellClick (fun _ => (0 : ℚ)) (initialState ⟨0, 0⟩) 0 4 =
      (initialState ⟨0, 0⟩, .none)
    ∧ isNear (initialState ⟨0, 0⟩) 0 4 = false
    ∧ isNear (initialState ⟨0, 0⟩) 3 3 = true :=
  handleCellClick_noop (fun _ => (0 : ℚ)) (initialState ⟨0, 0⟩) 0 4
    (Or.inl (by decide))

/-! ## Persistence round trip -/

/-- `mapSet` of a fresh key appends the entry. -/
theorem mapSet_of_not_mem (m : List (String × Int)) (k : String) (v : Int)
    (hk : k ∉ m.map Prod.fst) : mapSet m k v = m ++ [(k, v)] := by
  induction m with
  | nil => rfl
  | cons kv rest ih =>
    simp only [List.map_cons, List.mem_cons] at hk
    push_neg at hk
    simp [mapSet, (Ne.symm hk.1 : kv.1 ≠ k), ih hk.2]

/-- Folding `mapSet` over entries with globally distinct keys appends
them. -/
theorem foldl_mapSet_eq_append (l acc : List (String × Int))
    (h : ((acc ++ l).map Prod.fst).Nodup) :
    l.foldl (fun m kv => mapSet m kv.1 kv.2) acc = acc ++ l := by
  induction l generalizing acc with
  | nil => simp
  | cons kv rest ih =>
    have hk : kv.1 ∉ acc.map Prod.fst := by
      intro hmem
      have := h
      simp only [List.map_append, List.nodup_append] at this
      exact this.2.2 hmem (by simp)
    have hstep : mapSet acc kv.1 kv.2 = acc ++ [kv] := by
      simpa using mapSet_of_not_mem acc kv.1 kv.2 hk
    rw [List.foldl_cons, hstep, ih (acc ++ [kv]) (by simpa using h)]
    simp

/-- Rebuilding a `Map` from its own entry list reproduces it. -/
theorem buildMap_self (l : List (String × Int))
    (h : (l.map Prod.fst).Nodup) : buildMap l = l := by
  simpa using foldl_mapSet_eq_append l [] (by simpa using h)

/-- `save` followed by `load` into a fresh model restores the state. -/
theorem load_save (s : GameState) (p0 : IJ)
    (h : (s.modifiedCells.map Prod.fst).Nodup) :
    load (initialState p0) (some (save s)) = (s, some (save s)) := by
  simp [load, save, buildMap_self s.modifiedCells h]

/-- C6: serializing a state with `save` and loading the payload into a
fresh model instance reproduces the player coordinate, held value, and
override table exactly (for any model state, whose override table — a JS
`Map` — has distinct keys). -/
theorem save_load_roundtrip (s : GameState) (p0 : IJ)
    (h : (s.modifiedCells.map Prod.fst).Nodup) :
    (load (initialState p0) (some (save s))).1 = s :=
  congrArg Prod.fst (load_save s p0 h)

/-- Witness for C6: overrides `{(1,2) ↦ 8}`, player at (5,5), hand
holding 1 round-trip unchanged. -/
theorem save_load_roundtrip_witness :
    (load (initialState ⟨0, 0⟩)
        (some (save ⟨⟨5, 5⟩, some 1, [(key 1 2, 8)]⟩))).1 =
      ⟨⟨5, 5⟩, some 1, [(key 1 2, 8)]⟩ :=
  save_load_roundtrip ⟨⟨5, 5⟩, some 1, [(key 1 2, 8)]⟩ ⟨0, 0⟩ (by decide)

/-- C4: `getCellState` returns the override entry whenever one exists
(including `0` or a value equal to the generator default) and the
generator default otherwise; and after a save/load round trip (a
simulated restart) every cell reads the same value as before. -/
theorem getCellState_override_precedence (luck : String → ℚ)
    (s : GameState) (i j : Int) (p0 : IJ)
    (hnd : (s.modifiedCells.map Prod.fst).Nodup) :
    (∀ v, mapGet s.modifiedCells (key i j) = some v →
      getCellState luck s i j = v)
    ∧ (mapGet s.modifiedCells (key i j) = Option.none →
      getCellState luck s i j = getDefaultCellState luck i j)
    ∧ getCellState luck (load (initialState p0) (some (save s))).1 i j =
      getCellState luck s i j := by
  refine ⟨?_, ?_, ?_⟩
  · intro v hv
    simp [getCellState, hv]
  · intro hv
    simp [getCellState, hv]
  · rw [save_load_roundtrip s p0 hnd]

/-- Witness for C4: an override entry `0` at (0,0) wins over the
generator (which would give 1 there for this luck function), also after
a simulated restart. -/
theorem getCellState_override_precedence_witness :
    getCellState (fun _ => (0 : ℚ))
        ⟨⟨0, 0⟩, Option.none, [(key 0 0, 0)]⟩ 0 0 = 0
    ∧ getCellState (fun _ => (0 : ℚ))
        (load (initialState ⟨0, 0⟩)
          (some (save ⟨⟨0, 0⟩, Option.none, [(key 0 0, 0)]⟩))).1 0 0 = 0 := by
  have h := getCellState_override_precedence (fun _ => (0 : ℚ))
    ⟨⟨0, 0⟩, Option.none, [(key 0 0, 0)]⟩ 0 0 ⟨0, 0⟩ (by decide)
  exact ⟨h.1 0 (by decide), by rw [h.2.2]; exact h.1 0 (by decide)⟩

/-! ## Initialization resilience and new-game reset -/

/-- C7 counterexample: two stored payloads that fail to parse as the
snapshot shape are *not* purged from the store.  The empty string is
falsy, so `load` returns before ever reaching the parser and leaves it
in place; and a payload that parses as structured text but lacks every
snapshot field (e.g. the JSON text `"{}"`) never throws, so the `catch`
branch that removes the entry never runs.  Both yield the default
initial state but stay in the store. -/
theorem load_unparseable_not_purged :
    (initModel ⟨0, 0⟩ (some .empty)).1 = initialState ⟨0, 0⟩
    ∧ (initModel ⟨0, 0⟩ (some .empty)).2 ≠ Option.none
    ∧ (initModel ⟨0, 0⟩
        (some (.parsed ⟨Option.none, Option.none, Option.none⟩))).1 =
      initialState ⟨0, 0⟩
    ∧ (initModel ⟨0, 0⟩
        (some (.parsed ⟨Option.none, Option.none, Option.none⟩))).2 ≠
      Option.none := by
  decide

/-- C7 (amended): initialization from a stored payload that is absent,
empty, unparseable, or missing the snapshot fields never crashes and
yields the default initial state; but only a nonempty unparseable
payload — one that actually reaches `JSON.parse` and makes it throw —
is purged from the store.  An absent entry stays absent, while the
empty string and a parseable payload merely missing the snapshot fields
are left in the store. -/
theorem load_corrupt_recovery (p0 : IJ) (store : Option Stored)
    (h : store = Option.none ∨ store = some .empty ∨ store = some .corrupt
      ∨ store = some (.parsed ⟨Option.none, Option.none, Option.none⟩)) :
    (initModel p0 store).1 = initialState p0
    ∧ (store = some .corrupt → (initModel p0 store).2 = Option.none)
    ∧ (store = Option.none → (initModel p0 store).2 = Option.none)
    ∧ (store = some .empty → (initModel p0 store).2 = some .empty)
    ∧ (store = some (.parsed ⟨Option.none, Option.none, Option.none⟩) →
      (initModel p0 store).2 = store) := by
  rcases h with h | h | h | h <;> subst h <;>
    simp [initModel, load, initialState, buildMap]

/-- Witness for amended C7: a nonempty unparseable payload yields the
default state and is purged. -/
theorem load_corrupt_recovery_witness :
    (initModel ⟨0, 0⟩ (some .corrupt)).1 = initialState ⟨0, 0⟩
    ∧ (initModel ⟨0, 0⟩ (some .corrupt)).2 = Option.none := by
  have h := load_corrupt_recovery ⟨0, 0⟩ (some .corrupt)
    (Or.inr (Or.inr (Or.inl rfl)))
  exact ⟨h.1, h.2.1 rfl⟩

/-- C8: the New Game operation clears the override table, empties the
hand, resets the player to the fixed start coordinate, and deletes the
persisted snapshot, so a later restart also yields the fresh state. -/
theorem newGame_resets (store : Option Stored) :
    newGame store = (initialState startIJ, Option.none)
    ∧ initModel startIJ (newGame store).2 =
      (initialState startIJ, Option.none) := by
  simp [newGame, initModel, clearSavedState, load]

/-! ## Generator thresholds and determinism -/

/-- C5: the base value of a cell depends only on the luck value of the
seed string `spawn:i,j` (so it is deterministic across calls and
processes for a fixed deterministic hash), follows the fixed thresholds
`r < 0.25 ↦ 1`, `0.25 ≤ r < 0.30 ↦ 2`, `0.30 ≤ r < 0.32 ↦ 4`,
otherwise `0`, and always lies in `{0, 1, 2, 4}`. -/
theorem getDefaultCellState_spec (luck : String → ℚ) (i j : Int) :
    (∀ luck2 : String → ℚ, luck2 (spawnKey i j) = luck (spawnKey i j) →
      getDefaultCellState luck2 i j = getDefaultCellState luck i j)
    ∧ (luck (spawnKey i j) < 1 / 4 → getDefaultCellState luck i j = 1)
    ∧ (1 / 4 ≤ luck (spawnKey i j) → luck (spawnKey i j) < 3 / 10 →
      getDefaultCellState luck i j = 2)
    ∧ (3 / 10 ≤ luck (spawnKey i j) → luck (spawnKey i j) < 8 / 25 →
      getDefaultCellState luck i j = 4)
    ∧ (8 / 25 ≤ luck (spawnKey i j) → getDefaultCellState luck i j = 0)
    ∧ getDefaultCellState luck i j ∈ ([0, 1, 2, 4] : List Int) := by
  refine ⟨?_, ?_, ?_, ?_, ?_, ?_⟩
  · intro luck2 heq
    simp [getDefaultCellState, heq]
  · intro h1
    simp only [getDefaultCellState]
    rw [if_pos h1]
  · intro h1 h2
    simp only [getDefaultCellState]
    rw [if_neg (by linarith), if_pos h2]
  · intro h1 h2
    simp only [getDefaultCellState]
    rw [if_neg (by linarith), if_neg (by linarith), if_pos h2]
  · intro h1
    simp only [getDefaultCellState]
    rw [if_neg (by linarith), if_neg (by linarith), if_neg (by linarith)]
  · simp only [getDefaultCellState]
    split_ifs <;> simp

/-- Witness for C5: a luck function returning `0 < 0.25` on the seed of
(0,0) gives base value 1 there. -/
theorem getDefaultCellState_spec_witness :
    getDefaultCellState (fun _ => (0 : ℚ)) 0 0 = 1 :=
  (getDefaultCellState_spec (fun _ => (0 : ℚ)) 0 0).2.1 (by norm_num)

/-! ## Held-value invariant -/

/-- The hand is empty or holds a strictly positive value. -/
def handInv (s : GameState) : Prop :=
  ∀ v, s.inHand = some v → 0 < v

/-- What a click can do to the hand: leave it alone, fill an empty hand
with the clicked cell's (positive) current value, or empty it. -/
theorem handleCellClick_inHand_cases (luck : String → ℚ) (s : GameState)
    (i j : Int) :
    (handleCellClick luck s i j).1.inHand = s.inHand
    ∨ (s.inHand = Option.none ∧ 0 < getCellState luck s i j ∧
      (handleCellClick luck s i j).1.inHand =
        some (getCellState luck s i j))
    ∨ (handleCellClick luck s i j).1.inHand = Option.none := by
  by_cases hn : isNear s i j = true
  · cases hh : s.inHand with
    | none =>
      by_cases hcv : 0 < getCellState luck s i j
      · refine Or.inr (Or.inl ⟨rfl, hcv, ?_⟩)
        simp only [handleCellClick, hn, hh, hcv]
        simp only [Bool.true_eq_false, not_true_eq_false, if_false, if_true]
        split <;> rfl
      · left
        simp [handleCellClick, hn, hh, hcv]
    | some hval =>
      by_cases hc : getCellState luck s i j = hval ∧
          0 < getCellState luck s i j
      · refine Or.inr (Or.inr ?_)
        simp only [handleCellClick, hn, hh]
        simp only [Bool.true_eq_false, not_true_eq_false, if_false]
        rw [if_pos hc]
        split <;> rfl
      · left
        simp only [handleCellClick, hn, hh]
        simp only [Bool.true_eq_false, not_true_eq_false, if_false]
        rw [if_neg hc]
        exact hh
  · left
    simp [handleCellClick, hn]

/-- Each model operation preserves the hand invariant. -/
theorem handInv_applyOp (luck : String → ℚ) (s : GameState) (op : Op)
    (h : handInv s) : handInv (applyOp luck s op) := by
  cases op with
  | moveBy di dj => exact fun v hv => h v hv
  | moveTo p => exact fun v hv => h v hv
  | click i j =>
    intro v hv
    simp only [applyOp] at hv
    rcases handleCellClick_inHand_cases luck s i j with hsame | hpick | hnone
    · exact h v (hsame ▸ hv)
    · rw [hpick.2.2] at hv
      cases hv
      exact hpick.2.1
    · rw [hnone] at hv
      cases hv

/-- Operation sequences preserve the hand invariant. -/
theorem handInv_run (luck : String → ℚ) (s : GameState) (ops : List Op)
    (h : handInv s) : handInv (run luck s ops) := by
  induction ops generalizing s with
  | nil => exact h
  | cons op rest ih => exact ih (applyOp luck s op) (handInv_applyOp luck s op h)

/-- C10: starting from any state with an empty hand (in particular the
initial model state), every sequence of moves and clicks leaves the hand
empty or holding a strictly positive value; and whenever a click fills an
empty hand, the held value is exactly the clicked cell's current value at
that moment (and is positive). -/
theorem inHand_invariant (luck : String → ℚ) (s0 : GameState)
    (ops : List Op) (h0 : s0.inHand = Option.none) :
    (∀ v, (run luck s0 ops).inHand = some v → 0 < v)
    ∧ (∀ (s : GameState) (i j v : Int), s.inHand = Option.none →
      (handleCellClick luck s i j).1.inHand = some v →
      0 < v ∧ v = getCellState luck s i j) := by
  constructor
  · exact handInv_run luck s0 ops (fun v hv => by rw [h0] at hv; cases hv)
  · intro s i j v hh hv
    rcases handleCellClick_inHand_cases luck s i j with hsame | hpick | hnone
    · rw [hsame, hh] at hv
      cases hv
    · rw [hpick.2.2] at hv
      cases hv
      exact ⟨hpick.2.1, rfl⟩
    · rw [hnone] at hv
      cases hv

/-- Witness for C10: clicking the player's own cell holding override
value 7 from an empty hand yields a hand holding 7, which is positive. -/
theorem inHand_invariant_witness :
    (⟨⟨0, 0⟩, Option.none, [(key 0 0, 7)]⟩ : GameState).inHand =
      Option.none
    ∧ (run (fun _ => (0 : ℚ)) ⟨⟨0, 0⟩, Option.none, [(key 0 0, 7)]⟩
        [.click 0 0]).inHand = some 7
    ∧ (0 : Int) < 7 :=
  ⟨rfl, by decide,
    (inHand_invariant (fun _ => (0 : ℚ))
        ⟨⟨0, 0⟩, Option.none, [(key 0 0, 7)]⟩ [.click 0 0] rfl).1 7
      (by decide)⟩

/-! ## Injectivity of the coordinate key encoding -/

/-- Value of a digit list read most-significant-first. -/
def digitsVal (l : List Nat) : Nat := l.foldl (fun a d => 10 * a + d) 0

theorem digitsVal_digitsAux (fuel : Nat) :
    ∀ n, n < fuel → digitsVal (digitsAux fuel n) = n := by
  induction fuel with
  | zero => intro n hn; omega
  | succ f ih =>
    intro n hn
    rw [digitsAux]
    by_cases h10 : n < 10
    · simp [h10, digitsVal]
    · rw [if_neg h10]
      have hlt : n / 10 < f := by
        have hd : n / 10 < n := Nat.div_lt_self (by omega) (by omega)
        omega
      simp only [digitsVal, List.foldl_append, List.foldl_cons,
        List.foldl_nil]
      have := ih (n / 10) hlt
      simp only [digitsVal] at this
      rw [this]
      omega

theorem digitsVal_natDigits (n : Nat) : digitsVal (natDigits n) = n :=
  digitsVal_digitsAux (n + 1) n (Nat.lt_succ_self n)

theorem natDigits_injective : Function.Injective natDigits := by
  intro m n h
  calc m = digitsVal (natDigits m) := (digitsVal_natDigits m).symm
    _ = digitsVal (natDigits n) := by rw [h]
    _ = n := digitsVal_natDigits n

theorem digitsAux_lt (fuel : Nat) :
    ∀ n, ∀ d ∈ digitsAux fuel n, d < 10 := by
  induction fuel with
  | zero => intro n d hd; simp [digitsAux] at hd
  | succ f ih =>
    intro n d hd
    rw [digitsAux] at hd
    by_cases h10 : n < 10
    · rw [if_pos h10] at hd
      simp at hd
      omega
    · rw [if_neg h10] at hd
      rcases List.mem_append.1 hd with hm | hm
      · exact ih (n / 10) d hm
      · simp at hm
        omega

theorem natDigits_lt (n : Nat) : ∀ d ∈ natDigits n, d < 10 :=
  digitsAux_lt (n + 1) n

theorem natDigits_ne_nil (n : Nat) : natDigits n ≠ [] := by
  rw [natDigits, digitsAux]
  split <;> simp

theorem digitChar_inj :
    ∀ d1 < 10, ∀ d2 < 10,
      Nat.digitChar d1 = Nat.digitChar d2 → d1 = d2 := by
  decide

theorem digitChar_ne_comma_dash :
    ∀ d < 10, Nat.digitChar d ≠ ',' ∧ Nat.digitChar d ≠ '-' := by
  decide

theorem map_digitChar_inj (l1 : List Nat) :
    ∀ l2 : List Nat, (∀ d ∈ l1, d < 10) → (∀ d ∈ l2, d < 10) →
      l1.map Nat.digitChar = l2.map Nat.digitChar → l1 = l2 := by
  induction l1 with
  | nil => intro l2 _ _ h; cases l2 <;> simp_all
  | cons d rest ih =>
    intro l2 h1 h2 h
    cases l2 with
    | nil => simp_all
    | cons d2 rest2 =>
      simp only [List.map_cons, List.cons.injEq] at h
      have hd : d = d2 :=
        digitChar_inj d (h1 d (by simp)) d2 (h2 d2 (by simp)) h.1
      have hr : rest = rest2 :=
        ih rest2 (fun x hx => h1 x (by simp [hx]))
          (fun x hx => h2 x (by simp [hx])) h.2
      rw [hd, hr]

theorem natChars_injective : Function.Injective natChars := by
  intro m n h
  exact natDigits_injective
    (map_digitChar_inj (natDigits m) (natDigits n) (natDigits_lt m)
      (natDigits_lt n) h)

theorem comma_not_mem_natChars (n : Nat) : ',' ∉ natChars n := by
  intro hmem
  rcases List.mem_map.1 hmem with ⟨d, hd, hchar⟩
  exact (digitChar_ne_comma_dash d (natDigits_lt n d hd)).1 hchar

theorem natChars_head_not_dash (n : Nat) (c : List Char)
    (h : natChars n = '-' :: c) : False := by
  rcases hnd : natDigits n with _ | ⟨d, rest⟩
  · exact natDigits_ne_nil n hnd
  · rw [natChars, hnd] at h
    simp only [List.map_cons, List.cons.injEq] at h
    exact (digitChar_ne_comma_dash d (natDigits_lt n d (by rw [hnd]; simp))).2
      h.1

theorem intChars_injective : Function.Injective intChars := by
  intro m n h
  unfold intChars at h
  by_cases hm : m < 0 <;> by_cases hn : n < 0
  · rw [if_pos hm, if_pos hn] at h
    have := natChars_injective (List.cons_injective.eq_iff.1 h ▸ rfl :
      natChars m.natAbs = natChars n.natAbs)
    omega
  · rw [if_pos hm, if_neg hn] at h
    exact absurd h.symm (fun hh => natChars_head_not_dash n.toNat _ hh)
  · rw [if_neg hm, if_pos hn] at h
    exact absurd h (fun hh => natChars_head_not_dash m.toNat _ hh)
  · rw [if_neg hm, if_neg hn] at h
    have := natChars_injective h
    omega

theorem comma_not_mem_intChars (n : Int) : ',' ∉ intChars n := by
  unfold intChars
  split
  · intro hmem
    rcases List.mem_cons.1 hmem with hc | hc
    · exact absurd hc.symm (by decide)
    · exact comma_not_mem_natChars n.natAbs hc
  · exact comma_not_mem_natChars n.toNat

theorem append_comma_inj (a : List Char) :
    ∀ (c b d : List Char), ',' ∉ a → ',' ∉ c →
      a ++ ',' :: b = c ++ ',' :: d → a = c ∧ b = d := by
  induction a with
  | nil =>
    intro c b d _ hc h
    cases c with
    | nil => simp_all
    | cons y c2 =>
      simp only [List.nil_append, List.cons_append, List.cons.injEq] at h
      exact absurd (h.1 ▸ List.mem_cons_self y c2) hc
  | cons x a2 ih =>
    intro c b d ha hc h
    cases c with
    | nil =>
      simp only [List.cons_append, List.nil_append, List.cons.injEq] at h
      exact absurd (h.1 ▸ List.mem_cons_self x a2) ha
    | cons y c2 =>
      simp only [List.cons_append, List.cons.injEq] at h
      have := ih c2 b d (fun hx => ha (List.mem_cons_of_mem x hx))
        (fun hx => hc (List.mem_cons_of_mem y hx)) h.2
      exact ⟨by rw [h.1, this.1], this.2⟩

theorem key_data (i j : Int) :
    (key i j).data = intChars i ++ ',' :: intChars j := by
  simp [key, intStr, String.data_append]

theorem key_inj (i1 j1 i2 j2 : Int) (h : key i1 j1 = key i2 j2) :
    i1 = i2 ∧ j1 = j2 := by
  have hd : intChars i1 ++ ',' :: intChars j1 =
      intChars i2 ++ ',' :: intChars j2 := by
    rw [← key_data, ← key_data, h]
  have := append_comma_inj (intChars i1) (intChars i2) (intChars j1)
    (intChars j2) (comma_not_mem_intChars i1) (comma_not_mem_intChars i2) hd
  exact ⟨intChars_injective this.1, intChars_injective this.2⟩

theorem spawnKey_inj (i1 j1 i2 j2 : Int)
    (h : spawnKey i1 j1 = spawnKey i2 j2) : key i1 j1 = key i2 j2 := by
  have hd := congrArg String.data h
  simp only [spawnKey, String.data_append] at hd
  exact String.ext (List.append_cancel_left hd)

/-- C9: the override-table key encoding `"i,j"` and the generator seed
string `"spawn:i,j"` are both collision-free across distinct coordinate
pairs. -/
theorem key_spawnKey_injective (i1 j1 i2 j2 : Int)
    (h : (i1, j1) ≠ (i2, j2)) :
    key i1 j1 ≠ key i2 j2 ∧ spawnKey i1 j1 ≠ spawnKey i2 j2 := by
  constructor
  · intro hk
    exact h (by rcases key_inj i1 j1 i2 j2 hk with ⟨h1, h2⟩; rw [h1, h2])
  · intro hs
    have hk := spawnKey_inj i1 j1 i2 j2 hs
    exact h (by rcases key_inj i1 j1 i2 j2 hk with ⟨h1, h2⟩; rw [h1, h2])

/-- Witness for C9: (1,23) and (12,3) get different keys and different
seeds. -/
theorem key_spawnKey_injective_witness :
    key 1 23 ≠ key 12 3 ∧ spawnKey 1 23 ≠ spawnKey 12 3 :=
  key_spawnKey_injective 1 23 12 3 (by decide)

end D3
